import Mathlib

/-!
The webhook handler of charts-check-pr-title (`main.go`).

A shallow embedding of `main.go` (signature validation, title check, the
`processHook` handler) together with the library operations it calls, and the
properties of the handler stated over that embedding.

Conventions.

* A byte is a `Fin 256`; raw wire data (request body, header values, the shared
  secret) is a `List Byte`.  Arithmetic on bytes and on 32-bit words is done on
  `Nat` with an explicit `% 2 ^ w`.
* Strings decoded from the JSON payload (always valid UTF-8 after decoding) and
  the configured repository name they are compared with are Lean `String`s.
* Diagnostic output (`logit`, `fmt.Printf`) is not part of the model.
-/

namespace CheckPRTitle

/-! ## Bytes -/

/-- One octet. -/
abbrev Byte := Fin 256

/-- The bytes of an ASCII string constant (every character below 128 is its own
UTF-8 encoding). -/
def ascii (s : String) : List Byte := s.toList.map (fun c => Fin.ofNat c.toNat)

/-! ## `crypto/sha1` (FIPS 180-4) -/

/-- Rotate a 32-bit word left by `n` bits. -/
def rotl32 (x n : Nat) : Nat := ((x <<< n) ||| (x >>> (32 - n))) % 2 ^ 32

/-- Big-endian 32-bit word of four bytes. -/
def be32 (b0 b1 b2 b3 : Nat) : Nat := b0 <<< 24 ||| b1 <<< 16 ||| b2 <<< 8 ||| b3

/-- The four bytes of a 32-bit word, most significant first. -/
def wordBytes (w : Nat) : List Byte :=
  [Fin.ofNat (w >>> 24), Fin.ofNat (w >>> 16), Fin.ofNat (w >>> 8), Fin.ofNat w]

/-- Message padding: a `0x80` byte, zero bytes up to 56 mod 64, then the bit
length as a 64-bit big-endian integer. -/
def sha1Pad (msg : List Byte) : List Byte :=
  let len := msg.length
  let t := if len % 64 < 56 then 56 - len % 64 else 64 + 56 - len % 64
  let bits := (len * 8) % 2 ^ 64
  msg ++ ((0x80 : Byte) :: List.replicate (t - 1) (0 : Byte)) ++
    (List.range 8).map (fun i => Fin.ofNat (bits >>> (56 - 8 * i)))

/-- The first `n` big-endian words of a block. -/
def blockWords : Nat → List Byte → List Nat
  | 0, _ => []
  | n + 1, b0 :: b1 :: b2 :: b3 :: rest =>
      be32 b0.val b1.val b2.val b3.val :: blockWords n rest
  | _ + 1, _ => []

/-- Message schedule: the 16 block words extended to 80 words. -/
def schedule (w : List Nat) : List Nat :=
  (List.range 64).foldl (fun acc i =>
    acc ++ [rotl32 (acc.getD (i + 13) 0 ^^^ acc.getD (i + 8) 0 ^^^
              acc.getD (i + 2) 0 ^^^ acc.getD i 0) 1]) w

/-- The five 32-bit chaining words. -/
structure Digest where
  h0 : Nat
  h1 : Nat
  h2 : Nat
  h3 : Nat
  h4 : Nat
deriving DecidableEq

/-- Initial chaining value. -/
def sha1Init : Digest := ⟨0x67452301, 0xEFCDAB89, 0x98BADCFE, 0x10325476, 0xC3D2E1F0⟩

/-- Round `i` of the compression function with schedule word `wi`. -/
def sha1Round (i : Nat) (wi : Nat) (s : Digest) : Digest :=
  let a := s.h0; let b := s.h1; let c := s.h2; let d := s.h3; let e := s.h4
  let fk : Nat × Nat :=
    if i < 20 then ((b &&& c) ||| ((b ^^^ 0xFFFFFFFF) &&& d), 0x5A827999)
    else if i < 40 then (b ^^^ c ^^^ d, 0x6ED9EBA1)
    else if i < 60 then (((b ||| c) &&& d) ||| (b &&& c), 0x8F1BBCDC)
    else (b ^^^ c ^^^ d, 0xCA62C1D6)
  let t := (rotl32 a 5 + fk.1 + e + wi + fk.2) % 2 ^ 32
  ⟨t, a, rotl32 b 30, c, d⟩

/-- Compression of one 64-byte block. -/
def sha1Block (h : Digest) (block : List Byte) : Digest :=
  let w := schedule (blockWords 16 block)
  let s := (List.range 80).foldl (fun s i => sha1Round i (w.getD i 0) s) h
  ⟨(h.h0 + s.h0) % 2 ^ 32, (h.h1 + s.h1) % 2 ^ 32, (h.h2 + s.h2) % 2 ^ 32,
   (h.h3 + s.h3) % 2 ^ 32, (h.h4 + s.h4) % 2 ^ 32⟩

/-- Compression of `n` consecutive blocks. -/
def sha1Blocks : Nat → Digest → List Byte → Digest
  | 0, h, _ => h
  | n + 1, h, data => sha1Blocks n (sha1Block h (data.take 64)) (data.drop 64)

/-- The 20-byte SHA-1 digest (`sha1.New`, `Write`, `Sum(nil)`). -/
def sha1 (msg : List Byte) : List Byte :=
  let p := sha1Pad msg
  let d := sha1Blocks (p.length / 64) sha1Init p
  wordBytes d.h0 ++ wordBytes d.h1 ++ wordBytes d.h2 ++ wordBytes d.h3 ++ wordBytes d.h4

/-! ## `crypto/hmac` -/

/-- Block size of SHA-1 in bytes. -/
def sha1BlockSize : Nat := 64

/-- XOR every byte with a constant. -/
def xorPad (pad : Nat) (key : List Byte) : List Byte :=
  key.map (fun b => Fin.ofNat (b.val ^^^ pad))

/-- The keyed digest `hmac.New(sha1.New, key)`, `Write(msg)`, `Sum(nil)`: a key
longer than a block is hashed first, the key is zero-padded to a block, and the
digest is `H(opad ‖ H(ipad ‖ msg))`. -/
def hmacSHA1 (key msg : List Byte) : List Byte :=
  let key := if key.length > sha1BlockSize then sha1 key else key
  let block := key ++ List.replicate (sha1BlockSize - key.length) (0 : Byte)
  let ipad := xorPad 0x36 block
  let opad := xorPad 0x5c block
  sha1 (opad ++ sha1 (ipad ++ msg))

/-! ## `fmt` and `crypto/subtle` -/

/-- The digit table of `fmt` for `%x`. -/
def ldigits : List Byte := ascii "0123456789abcdefx"

/-- Verb `%x` applied to a byte slice: two lowercase digits per byte, high
nibble first, no separator. -/
def fmtSbx (b : List Byte) : List Byte :=
  b.flatMap (fun c => [ldigits.getD (c.val >>> 4) 0, ldigits.getD (c.val &&& 0xF) 0])

/-- Result 1 when the bytes are equal and 0 otherwise:
`int((uint32(x^y) - 1) >> 31)`. -/
def ConstantTimeByteEq (x y : Nat) : Nat :=
  ((((x ^^^ y) % 256) + 2 ^ 32 - 1) % 2 ^ 32) >>> 31

/-- The loop `v |= x[i] ^ y[i]` over two slices, `v` a byte. -/
def xorAccum : Nat → List Byte → List Byte → Nat
  | v, a :: x, b :: y => xorAccum ((v ||| (a.val ^^^ b.val)) % 256) x y
  | v, _, _ => v

/-- Result 1 when the slices have equal contents and 0 otherwise; slices of
different lengths give 0 at once. -/
def ConstantTimeCompare (x y : List Byte) : Nat :=
  if x.length ≠ y.length then 0
  else ConstantTimeByteEq (xorAccum 0 x y) 0

/-! ## Configuration and `validateSig` -/

/-- The package-level variables set from the environment in `main`. -/
structure Config where
  sharedSecret : List Byte
  repoFullName : String
  ghToken : String

/-- Function `validateSig`: `Except.ok ()` is the `nil` error. -/
def validateSig (cfg : Config) (sig : List Byte) (body : List Byte) : Except String Unit :=
  let sum := hmacSHA1 cfg.sharedSecret body
  let checksum := ascii "sha1=" ++ fmtSbx sum
  if ConstantTimeCompare checksum sig ≠ 1 then
    Except.error "payload signature check failed"
  else
    Except.ok ()

/-! ## `regexp`: the part of the engine that `retestRe` uses -/

/-- Regular-expression syntax trees, after parsing without flags: the anchors
are begin-of-text and end-of-text and the dot excludes the newline. -/
inductive Regex where
  | empty
  | beginText
  | endText
  | lit (c : Char)
  | anyCharNotNL
  | cat (r s : Regex)
  | alt (r s : Regex)
  | star (r : Regex)
  | capture (i : Nat) (r : Regex)

/-- A thread of the backtracking matcher: characters consumed so far, the
remaining input, and the capture registers (start and end offsets). -/
structure Thread where
  pos : Nat
  rest : List Char
  cap : List (Option (Nat × Nat))

/-- Greedy iteration of a step function: more iterations are preferred, an
iteration that consumes nothing is not repeated, and the fuel bounds the
number of iterations by the length of the remaining input. -/
def starRun (step : Thread → List Thread) : Nat → Thread → List Thread
  | 0, t => [t]
  | fuel + 1, t =>
      ((step t).filter (fun u => u.rest.length < t.rest.length)).flatMap (starRun step fuel)
        ++ [t]

/-- All ways to match the expression at a thread, in priority order (the first
is the leftmost-first match the engine reports). -/
def Regex.run : Regex → Thread → List Thread
  | .empty, t => [t]
  | .beginText, t => if t.pos = 0 then [t] else []
  | .endText, t =>
      match t.rest with
      | [] => [t]
      | _ :: _ => []
  | .lit c, t =>
      match t.rest with
      | d :: ds => if d = c then [⟨t.pos + 1, ds, t.cap⟩] else []
      | [] => []
  | .anyCharNotNL, t =>
      match t.rest with
      | d :: ds => if d ≠ '\n' then [⟨t.pos + 1, ds, t.cap⟩] else []
      | [] => []
  | .cat r s, t => (r.run t).flatMap s.run
  | .alt r s, t => r.run t ++ s.run t
  | .star r, t => starRun r.run t.rest.length t
  | .capture i r, t => (r.run t).map (fun u => ⟨u.pos, u.rest, u.cap.set i (some (t.pos, u.pos))⟩)

/-- The concatenation of the literal characters of a string. -/
def Regex.literal : List Char → Regex
  | [] => .empty
  | [c] => .lit c
  | c :: cs => .cat (.lit c) (Regex.literal cs)

/-- A compiled expression: the syntax tree and the number of capture groups. -/
structure Regexp where
  prog : Regex
  numSubexp : Nat

/-- One match: offsets of the whole match and the capture registers. -/
structure Match where
  start : Nat
  stop : Nat
  cap : List (Option (Nat × Nat))

/-- The leftmost-first match that starts exactly at offset `start`. -/
def matchAt (re : Regexp) (text : List Char) (start : Nat) : Option Match :=
  match re.prog.run ⟨start, text.drop start, List.replicate re.numSubexp none⟩ with
  | [] => none
  | u :: _ => some ⟨start, u.pos, u.cap⟩

/-- Unanchored search: the first offset `pos, pos + 1, ...` (at most `fuel` of
them) at which the expression matches. -/
def searchFrom (re : Regexp) (text : List Char) : Nat → Nat → Option Match
  | 0, _ => none
  | fuel + 1, pos =>
      match matchAt re text pos with
      | some m => some m
      | none => searchFrom re text fuel (pos + 1)

/-- Method `doExecute` at offset `pos`: the leftmost match starting at or after
`pos`, the anchors referring to the whole text. -/
def doExecute (re : Regexp) (text : List Char) (pos : Nat) : Option Match :=
  searchFrom re text (text.length + 1 - pos) pos

/-- The loop of `allMatches`: successive non-overlapping matches; an empty match
adjacent to the preceding match is dropped.  Every iteration advances `pos`, so
the fuel `len + 2` covers the loop. -/
def allMatches (re : Regexp) (text : List Char) : Nat → Nat → Int → List Match
  | 0, _, _ => []
  | fuel + 1, pos, prevMatchEnd =>
      if pos > text.length then []
      else
        match doExecute re text pos with
        | none => []
        | some m =>
            let accept := !(m.stop = pos && (m.start : Int) = prevMatchEnd)
            let pos' :=
              if m.stop = pos then (if pos < text.length then pos + 1 else text.length + 1)
              else m.stop
            if accept then m :: allMatches re text fuel pos' m.stop
            else allMatches re text fuel pos' m.stop

/-- The text between two offsets. -/
def substr (text : List Char) (a b : Nat) : String := String.mk ((text.drop a).take (b - a))

/-- The strings of one match: the whole match, then one string per capture group
(empty for a group that did not take part). -/
def Match.strings (re : Regexp) (text : List Char) (m : Match) : List String :=
  substr text m.start m.stop ::
    (List.range re.numSubexp).map (fun i =>
      match m.cap.getD i none with
      | some (a, b) => substr text a b
      | none => "")

/-- Method `FindAllStringSubmatch(s, -1)`: all matches, no limit. -/
def FindAllStringSubmatch (re : Regexp) (s : String) : List (List String) :=
  (allMatches re s.toList (s.length + 2) 0 (-1)).map (Match.strings re s.toList)

/-! ## Title check -/

/-- The expression `^(\[.*\/.*]|\[test\]).*$`. -/
def retestRe : Regexp :=
  ⟨.cat .beginText
    (.cat
      (.capture 0
        (.alt
          (.cat (.lit '[') (.cat (.star .anyCharNotNL)
            (.cat (.lit '/') (.cat (.star .anyCharNotNL) (.lit ']')))))
          (Regex.literal "[test]".toList)))
      (.cat (.star .anyCharNotNL) .endText)),
   1⟩

/-- Function `validTitle`. -/
def validTitle (title : String) : Bool :=
  let found := FindAllStringSubmatch retestRe title
  if found.length = 0 || (found.headD []).length < 2 then
    false
  else
    true

/-! ## `strings.Split` -/

/-- Splitting at a one-character separator, `acc` holding the current part in
reverse. -/
def splitAux (sep : Char) : List Char → List Char → List (List Char)
  | [], acc => [acc.reverse]
  | c :: cs, acc =>
      if c = sep then acc.reverse :: splitAux sep cs []
      else splitAux sep cs (c :: acc)

/-- Call `strings.Split(s, sep)` for a separator of one character: the parts
between the separators, one more than there are separators. -/
def Split (s : String) (sep : Char) : List String :=
  (splitAux sep s.toList []).map String.mk

/-! ## The webhook payload and the handler -/

/-- Type `github.Repository`, the field the handler reads (a `*string`). -/
structure Repository where
  FullName : Option String

/-- Type `github.PullRequest`, the field the handler reads. -/
structure PullRequest where
  Title : Option String

/-- Type `github.PullRequestEvent`, the fields the handler reads; every field is
a pointer and may be nil. -/
structure PullRequestEvent where
  Action : Option String
  Number : Option Int
  PullRequest : Option PullRequest
  Repo : Option Repository

/-- The parts of the HTTP request the handler reads: the two header values (empty
when the header is absent) and the result of reading the body. -/
structure Request where
  sigHeader : List Byte
  eventHeader : List Byte
  body : Except String (List Byte)

/-- The arguments of one `PullRequests.CreateComment` call. -/
structure CommentCall where
  owner : String
  repo : String
  number : Int
  body : String
deriving DecidableEq

/-- What `CreateComment` returns to the handler: the error, if any, and the
status code of the response. -/
structure CommentResult where
  err : Option String
  statusCode : Int

/-- The collaborators of the handler: the payload parser `github.ParseWebHook`
and the comment-creation operation of the API client. -/
structure Env where
  ParseWebHook : List Byte → List Byte → Except String PullRequestEvent
  CreateComment : CommentCall → CommentResult

/-- Run-time panics the handler can raise. -/
inductive Panic where
  | nilPointerDereference
  | indexOutOfRange
deriving DecidableEq

/-- How the handler ends: a JSON response `{"message": ...}` with a status, or a
panic. -/
inductive Outcome where
  | json (status : Nat) (message : String)
  | panic (p : Panic)
deriving DecidableEq

/-- The outcome of the handler and the comment-creation calls it issued. -/
structure Result where
  outcome : Outcome
  calls : List CommentCall

/-- The status the client sees: `gin.Recovery` (installed in `main`) turns a
panic into status 500. -/
def Result.status (r : Result) : Nat :=
  match r.outcome with
  | .json status _ => status
  | .panic _ => 500

/-- The body of the comment to post. -/
def cmtBody : String :=
  "Thank you for submitting the pull request. There are many people who review pull requests for the different charts and tests. To help us review your pull request would you consider updating the pull request title to the format:\n\n * **[<repo>/<chart>] title** (e.g., _[stable/mariadb] title_) if this pull request is for a specific chart\n * **[test] title** if this pull request is for the common tests\n \n"

/-- Function `processHook`. -/
def processHook (cfg : Config) (env : Env) (req : Request) : Result :=
  -- Validate payload
  let sig := req.sigHeader
  if sig = [] then ⟨.json 400 "Missing X-Hub-Signature", []⟩
  else
    match req.body with
    | .error _ => ⟨.json 400 "Malformed body", []⟩
    | .ok body =>
      match validateSig cfg sig body with
      | .error _ => ⟨.json 403 "Validating payload against signature failed", []⟩
      | .ok _ =>
        -- Check the event type
        let event := req.eventHeader
        if event ≠ ascii "pull_request" then ⟨.json 200 "Skipping event type", []⟩
        else
          match env.ParseWebHook event body with
          | .error _ => ⟨.json 400 "Malformed body", []⟩
          | .ok payload =>
            -- Filter by repo name
            match payload.Repo with
            | none => ⟨.panic .nilPointerDereference, []⟩
            | some repo =>
            match repo.FullName with
            | none => ⟨.panic .nilPointerDereference, []⟩
            | some fullName =>
            if fullName ≠ cfg.repoFullName then
              ⟨.json 400 "Payload submitted for wrong repo", []⟩
            else
              -- Filter pull request actions
              match payload.Action with
              | none => ⟨.panic .nilPointerDereference, []⟩
              | some action =>
              if action ≠ "opened" then ⟨.json 200 "Skipping action", []⟩
              else
                -- Check the title of the PR
                match payload.PullRequest with
                | none => ⟨.panic .nilPointerDereference, []⟩
                | some pr =>
                match pr.Title with
                | none => ⟨.panic .nilPointerDereference, []⟩
                | some title =>
                if !validTitle title then
                  -- Leave a comment
                  let parts := Split fullName '/'
                  match parts with
                  | [] => ⟨.panic .indexOutOfRange, []⟩
                  | [_] => ⟨.panic .indexOutOfRange, []⟩
                  | p0 :: p1 :: _ =>
                  match payload.Number with
                  | none => ⟨.panic .nilPointerDereference, []⟩
                  | some number =>
                  let call : CommentCall := ⟨p0, p1, number, cmtBody⟩
                  let r := env.CreateComment call
                  if r.err.isSome then
                    ⟨.json 500 "Unable to post comment", [call]⟩
                  else if r.statusCode < 200 ∨ r.statusCode ≥ 300 then
                    ⟨.json 500 "Unable to post comment", [call]⟩
                  else
                    ⟨.json 200 "Success", [call]⟩
                else
                  ⟨.json 200 "Success", []⟩

/-! ## Reachability in the matcher -/

/-- Some way of matching `r` at thread `t` leaves exactly the input `s`. -/
def Reach (r : Regex) (t : Thread) (s : List Char) : Prop :=
  ∃ u, u ∈ r.run t ∧ u.rest = s

/-! ## Specification-side title format and signature form -/

/-- A path segment as the specification words it: a run of characters (possibly
empty) containing neither "/" nor "]". -/
def IsSegment (a : List Char) : Prop := '/' ∉ a ∧ ']' ∉ a

/-- The title format as the specification words it: the title starts with
"[" segment "/" segment "]" or with "[test]", followed by any text. -/
def SpecValidTitle (t : String) : Prop :=
  (∃ a b r : List Char, IsSegment a ∧ IsSegment b ∧
      t.toList = '[' :: (a ++ '/' :: (b ++ ']' :: r))) ∨
    (∃ r : List Char, t.toList = "[test]".toList ++ r)

/-- A hexadecimal digit, either case. -/
def isHexDigit (b : Byte) : Bool :=
  (48 ≤ b.val && b.val ≤ 57) || (97 ≤ b.val && b.val ≤ 102) || (65 ≤ b.val && b.val ≤ 70)

/-- The form the specification expects of the signature header: "sha1=" followed
by hexadecimal digits. -/
def sigWellFormed (h : List Byte) : Bool :=
  (ascii "sha1=").isPrefixOf h && (h.drop 5).all isHexDigit

/-! ## Sample data -/

/-- A configuration with secret "secret" and the given target repository. -/
def sampleCfg (target : String) : Config := ⟨ascii "secret", target, "token"⟩

/-- The signature of the body "payload" under the secret "secret". -/
def sampleSig : List Byte := ascii "sha1=f75efc0f29bf50c23f99b30b86f7c78fdaf5f11d"

/-- A payload with every field present and pull-request number 7. -/
def sampleEvent (fullName action title : String) : PullRequestEvent :=
  ⟨some action, some 7, some ⟨some title⟩, some ⟨some fullName⟩⟩

/-- Collaborators that parse every body to `p` and answer every comment-creation
call with the given status and no error. -/
def sampleEnv (p : PullRequestEvent) (status : Int) : Env :=
  ⟨fun _ _ => .ok p, fun _ => ⟨none, status⟩⟩

/-- A request with body "payload", the given signature header and event type. -/
def sampleReq (sig : List Byte) (event : String) : Request :=
  ⟨sig, ascii event, .ok (ascii "payload")⟩

/-! ## Specification-side hexadecimal encoding -/

/-- Lowercase hexadecimal encoding of a byte string, as the specification words
it: every byte becomes its two base-16 digits. -/
def hexLower (bs : List Byte) : List Byte :=
  bs.flatMap (fun b =>
    [Fin.ofNat (Nat.digitChar (b.val / 16)).toNat, Fin.ofNat (Nat.digitChar (b.val % 16)).toNat])

/-! ## Signature validation -/

/-- The SHA-1 model agrees with the FIPS 180 test vector for "abc". -/
theorem sha1_abc :
    sha1 (ascii "abc") =
      [0xa9, 0x99, 0x3e, 0x36, 0x47, 0x06, 0x81, 0x6a, 0xba, 0x3e,
       0x25, 0x71, 0x78, 0x50, 0xc2, 0x6c, 0x9c, 0xd0, 0xd8, 0x9d] := by
  decide!

/-- The HMAC model agrees with RFC 2202, HMAC-SHA-1 test case 2. -/
theorem hmacSHA1_rfc2202 :
    fmtSbx (hmacSHA1 (ascii "Jefe") (ascii "what do ya want for nothing?")) =
      ascii "effcdf6ae5eb2fa2d27416d5f184df9c259a7c79" := by
  decide!

theorem fmtSbx_eq_hexLower (bs : List Byte) : fmtSbx bs = hexLower bs := by
  unfold fmtSbx hexLower
  congr 1
  funext b
  revert b
  decide!

theorem ConstantTimeByteEq_zero (v : Nat) (hv : v < 256) :
    ConstantTimeByteEq v 0 = 1 ↔ v = 0 := by
  have key : ∀ w : Fin 256, ConstantTimeByteEq w.val 0 = 1 ↔ w.val = 0 := by decide!
  exact key ⟨v, hv⟩

theorem lor_eq_zero_iff (a b : Nat) : a ||| b = 0 ↔ a = 0 ∧ b = 0 := by
  constructor
  · intro h
    constructor
    · apply Nat.eq_of_testBit_eq
      intro i
      have := congrArg (fun n => Nat.testBit n i) h
      simp only [Nat.testBit_or, Nat.zero_testBit, Bool.or_eq_false_iff] at this
      simp [this.1]
    · apply Nat.eq_of_testBit_eq
      intro i
      have := congrArg (fun n => Nat.testBit n i) h
      simp only [Nat.testBit_or, Nat.zero_testBit, Bool.or_eq_false_iff] at this
      simp [this.2]
  · rintro ⟨rfl, rfl⟩
    rfl

theorem xorAccum_lt (v : Nat) (x y : List Byte) (hv : v < 256) : xorAccum v x y < 256 := by
  induction x generalizing v y with
  | nil => simpa [xorAccum] using hv
  | cons a x ih =>
    cases y with
    | nil => simpa [xorAccum] using hv
    | cons b y =>
      simp only [xorAccum]
      exact ih _ _ (Nat.mod_lt _ (by decide))

theorem xorAccum_eq_zero (v : Nat) (x y : List Byte) (hv : v < 256)
    (hlen : x.length = y.length) : xorAccum v x y = 0 ↔ v = 0 ∧ x = y := by
  induction x generalizing v y with
  | nil =>
    cases y with
    | nil => simp [xorAccum]
    | cons b y => simp at hlen
  | cons a x ih =>
    cases y with
    | nil => simp at hlen
    | cons b y =>
      simp only [List.length_cons, Nat.add_right_cancel_iff] at hlen
      simp only [xorAccum]
      have hab : a.val ^^^ b.val < 2 ^ 8 := Nat.xor_lt_two_pow a.isLt b.isLt
      have hlt : v ||| (a.val ^^^ b.val) < 256 := Nat.or_lt_two_pow (n := 8) hv hab
      rw [Nat.mod_eq_of_lt hlt, ih _ _ hlt hlen, lor_eq_zero_iff, Nat.xor_eq_zero]
      constructor
      · rintro ⟨⟨hv0, hab⟩, hxy⟩
        exact ⟨hv0, by rw [Fin.ext hab, hxy]⟩
      · rintro ⟨hv0, hxy⟩
        injection hxy with h1 h2
        exact ⟨⟨hv0, by rw [h1]⟩, h2⟩

theorem ConstantTimeCompare_eq_one (x y : List Byte) :
    ConstantTimeCompare x y = 1 ↔ x = y := by
  unfold ConstantTimeCompare
  by_cases hlen : x.length = y.length
  · simp only [hlen, ne_eq, not_true_eq_false, if_false]
    rw [ConstantTimeByteEq_zero _ (xorAccum_lt 0 x y (by decide)),
      xorAccum_eq_zero 0 x y (by decide) hlen]
    simp
  · simp only [ne_eq, hlen, not_false_eq_true, if_true]
    constructor
    · intro h
      exact absurd h (by decide)
    · intro h
      exact absurd (congrArg List.length h) hlen

theorem validateSig_ok_iff (cfg : Config) (sig body : List Byte) :
    validateSig cfg sig body = Except.ok () ↔
      sig = ascii "sha1=" ++ fmtSbx (hmacSHA1 cfg.sharedSecret body) := by
  unfold validateSig
  by_cases h : ConstantTimeCompare (ascii "sha1=" ++ fmtSbx (hmacSHA1 cfg.sharedSecret body)) sig = 1
  · simp only [h, ne_eq, not_true_eq_false, if_false, true_iff]
    exact ((ConstantTimeCompare_eq_one _ _).mp h).symm
  · simp only [h, ne_eq, not_false_eq_true, if_true]
    constructor
    · intro h'
      cases h'
    · intro h'
      exact absurd ((ConstantTimeCompare_eq_one _ _).mpr h'.symm) h

/-- C1: `validateSig` returns no error exactly when the header is "sha1="
followed by the lowercase hexadecimal encoding of HMAC-SHA1 of the body under
the shared secret; in every other case it returns the signature-check error. -/
theorem C1_validateSig_iff (S B H : List Byte) (repo token : String) :
    (validateSig ⟨S, repo, token⟩ H B = Except.ok () ↔
        H = ascii "sha1=" ++ hexLower (hmacSHA1 S B)) ∧
    (H ≠ ascii "sha1=" ++ hexLower (hmacSHA1 S B) →
        validateSig ⟨S, repo, token⟩ H B = Except.error "payload signature check failed") := by
  have hiff := validateSig_ok_iff ⟨S, repo, token⟩ H B
  rw [fmtSbx_eq_hexLower] at hiff
  refine ⟨hiff, ?_⟩
  intro hne
  have hcmp : ConstantTimeCompare (ascii "sha1=" ++ fmtSbx (hmacSHA1 S B)) H ≠ 1 := by
    intro h1
    apply hne
    rw [← fmtSbx_eq_hexLower]
    exact ((ConstantTimeCompare_eq_one _ _).mp h1).symm
  simp only [validateSig, hcmp, ne_eq, not_false_eq_true, if_true]

theorem Thread.ext_iff3 (u t : Thread) :
    u = t ↔ u.pos = t.pos ∧ u.rest = t.rest ∧ u.cap = t.cap := by
  cases u; cases t; simp

theorem mem_run_lit (c : Char) (t u : Thread) :
    u ∈ (Regex.lit c).run t ↔ t.rest = c :: u.rest ∧ u.pos = t.pos + 1 ∧ u.cap = t.cap := by
  obtain ⟨p, rest, cap⟩ := t
  obtain ⟨p', rest', cap'⟩ := u
  cases rest with
  | nil => simp [Regex.run]
  | cons d ds =>
    by_cases h : d = c
    · subst h
      simp only [Regex.run, if_true, List.mem_singleton, Thread.mk.injEq, List.cons.injEq, true_and]
      constructor
      · rintro ⟨h1, h2, h3⟩; exact ⟨h2.symm, h1, h3⟩
      · rintro ⟨h1, h2, h3⟩; exact ⟨h2, h1.symm, h3⟩
    · simp [Regex.run, h]

theorem mem_run_any (t u : Thread) :
    u ∈ Regex.anyCharNotNL.run t ↔
      ∃ c, c ≠ '\n' ∧ t.rest = c :: u.rest ∧ u.pos = t.pos + 1 ∧ u.cap = t.cap := by
  obtain ⟨p, rest, cap⟩ := t
  obtain ⟨p', rest', cap'⟩ := u
  cases rest with
  | nil => simp [Regex.run]
  | cons d ds =>
    by_cases h : d = '\n'
    · subst h
      simp only [Regex.run, ne_eq, not_true_eq_false, if_false, List.not_mem_nil, List.cons.injEq,
        false_iff, not_exists, not_and]
      rintro c hc ⟨h1, -⟩
      exact absurd h1.symm hc
    · simp only [Regex.run, ne_eq, h, not_false_eq_true, if_true, List.mem_singleton,
        Thread.mk.injEq, List.cons.injEq]
      constructor
      · rintro ⟨h1, h2, h3⟩; exact ⟨d, h, ⟨rfl, h2.symm⟩, h1, h3⟩
      · rintro ⟨c, _, ⟨_, h2⟩, h1, h3⟩; exact ⟨h1, h2.symm, h3⟩

theorem mem_starRun_any (n : Nat) (t u : Thread) :
    u ∈ starRun Regex.anyCharNotNL.run n t ↔
      ∃ w : List Char, w.length ≤ n ∧ (∀ c ∈ w, c ≠ '\n') ∧ t.rest = w ++ u.rest ∧
        u.pos = t.pos + w.length ∧ u.cap = t.cap := by
  induction n generalizing t with
  | zero =>
    simp only [starRun, List.mem_singleton, Thread.ext_iff3]
    constructor
    · rintro ⟨h1, h2, h3⟩
      exact ⟨[], by simp, by simp, by simp [h2], by simp [h1], h3⟩
    · rintro ⟨w, hw, -, h2, h1, h3⟩
      have : w = [] := List.length_eq_zero.mp (Nat.le_zero.mp hw)
      subst this
      exact ⟨by simpa using h1, by simpa using h2.symm, h3⟩
  | succ n ih =>
    simp only [starRun, List.mem_append, List.mem_flatMap, List.mem_filter, List.mem_singleton,
      decide_eq_true_eq, mem_run_any, ih]
    constructor
    · rintro (⟨v, ⟨⟨c, hc, hrest, hpos, hcap⟩, -⟩, w, hw, hnl, hvrest, hupos, hucap⟩ | h)
      · refine ⟨c :: w, by simp [hw], ?_, ?_, ?_, ?_⟩
        · intro d hd
          rcases List.mem_cons.mp hd with rfl | hd
          · exact hc
          · exact hnl d hd
        · rw [hrest, hvrest]; rfl
        · rw [hupos, hpos, List.length_cons]; omega
        · rw [hucap, hcap]
      · subst h
        exact ⟨[], by simp, by simp, by simp, by simp, rfl⟩
    · rintro ⟨w, hw, hnl, hrest, hpos, hcap⟩
      cases w with
      | nil =>
        right
        rw [Thread.ext_iff3]
        exact ⟨by simpa using hpos, by simpa using hrest.symm, hcap⟩
      | cons c w =>
        left
        refine ⟨⟨t.pos + 1, w ++ u.rest, t.cap⟩, ⟨⟨c, hnl c (List.mem_cons_self _ _), ?_, rfl, rfl⟩, ?_⟩,
          w, ?_, ?_, rfl, ?_, hcap⟩
        · simpa using hrest
        · rw [hrest]; simp
        · simpa using hw
        · intro d hd
          exact hnl d (List.mem_cons_of_mem _ hd)
        · rw [hpos, List.length_cons]; simp only []; omega

theorem mem_run_star_any (t u : Thread) :
    u ∈ (Regex.star .anyCharNotNL).run t ↔
      ∃ w : List Char, (∀ c ∈ w, c ≠ '\n') ∧ t.rest = w ++ u.rest ∧
        u.pos = t.pos + w.length ∧ u.cap = t.cap := by
  show u ∈ starRun Regex.anyCharNotNL.run t.rest.length t ↔ _
  rw [mem_starRun_any]
  constructor
  · rintro ⟨w, -, h⟩
    exact ⟨w, h⟩
  · rintro ⟨w, hnl, hrest, h⟩
    refine ⟨w, ?_, hnl, hrest, h⟩
    rw [hrest, List.length_append]
    omega

theorem reach_lit (c : Char) (t : Thread) (s : List Char) :
    Reach (.lit c) t s ↔ t.rest = c :: s := by
  unfold Reach
  constructor
  · rintro ⟨u, hu, rfl⟩
    exact ((mem_run_lit c t u).mp hu).1
  · intro h
    exact ⟨⟨t.pos + 1, s, t.cap⟩, (mem_run_lit c t _).mpr ⟨h, rfl, rfl⟩, rfl⟩

theorem reach_star_any (t : Thread) (s : List Char) :
    Reach (.star .anyCharNotNL) t s ↔ ∃ w : List Char, (∀ c ∈ w, c ≠ '\n') ∧ t.rest = w ++ s := by
  unfold Reach
  constructor
  · rintro ⟨u, hu, rfl⟩
    obtain ⟨w, hnl, hrest, -⟩ := (mem_run_star_any t u).mp hu
    exact ⟨w, hnl, hrest⟩
  · rintro ⟨w, hnl, hrest⟩
    exact ⟨⟨t.pos + w.length, s, t.cap⟩, (mem_run_star_any t _).mpr ⟨w, hnl, hrest, rfl, rfl⟩, rfl⟩

theorem reach_endText (t : Thread) (s : List Char) :
    Reach .endText t s ↔ t.rest = [] ∧ s = [] := by
  unfold Reach
  obtain ⟨p, rest, cap⟩ := t
  cases rest with
  | nil =>
    simp only [Regex.run, List.mem_singleton, exists_eq_left, true_and]
    exact eq_comm
  | cons d ds => simp [Regex.run]

theorem reach_beginText (t : Thread) (s : List Char) :
    Reach .beginText t s ↔ t.pos = 0 ∧ t.rest = s := by
  unfold Reach
  by_cases h : t.pos = 0 <;> simp [Regex.run, h]

theorem reach_cat (r₁ r₂ : Regex) (t : Thread) (s : List Char) (P : List Char → Prop)
    (h : ∀ v : Thread, Reach r₂ v s ↔ P v.rest) :
    Reach (.cat r₁ r₂) t s ↔ ∃ m, Reach r₁ t m ∧ P m := by
  unfold Reach at *
  simp only [Regex.run, List.mem_flatMap]
  constructor
  · rintro ⟨u, ⟨v, hv, hu⟩, hs⟩
    exact ⟨v.rest, ⟨v, hv, rfl⟩, (h v).mp ⟨u, hu, hs⟩⟩
  · rintro ⟨m, ⟨v, hv, rfl⟩, hP⟩
    obtain ⟨u, hu, hs⟩ := (h v).mpr hP
    exact ⟨u, ⟨v, hv, hu⟩, hs⟩

theorem reach_alt (r₁ r₂ : Regex) (t : Thread) (s : List Char) :
    Reach (.alt r₁ r₂) t s ↔ Reach r₁ t s ∨ Reach r₂ t s := by
  unfold Reach
  simp only [Regex.run, List.mem_append]
  constructor
  · rintro ⟨u, hu | hu, hs⟩
    · exact Or.inl ⟨u, hu, hs⟩
    · exact Or.inr ⟨u, hu, hs⟩
  · rintro (⟨u, hu, hs⟩ | ⟨u, hu, hs⟩)
    · exact ⟨u, Or.inl hu, hs⟩
    · exact ⟨u, Or.inr hu, hs⟩

theorem reach_capture (i : Nat) (r : Regex) (t : Thread) (s : List Char) :
    Reach (.capture i r) t s ↔ Reach r t s := by
  unfold Reach
  simp only [Regex.run, List.mem_map]
  constructor
  · rintro ⟨u, ⟨v, hv, rfl⟩, hs⟩
    exact ⟨v, hv, hs⟩
  · rintro ⟨v, hv, hs⟩
    exact ⟨_, ⟨v, hv, rfl⟩, hs⟩

theorem reach_test (t : Thread) (s : List Char) :
    Reach (Regex.literal ['[', 't', 'e', 's', 't', ']']) t s ↔
      t.rest = ['[', 't', 'e', 's', 't', ']'] ++ s := by
  have h5 : ∀ v : Thread, Reach (.lit ']') v s ↔ v.rest = ']' :: s := fun v => reach_lit _ v s
  have h4 : ∀ v : Thread, Reach (.cat (.lit 't') (.lit ']')) v s ↔ v.rest = 't' :: ']' :: s := by
    intro v
    rw [reach_cat _ _ _ _ (fun m => m = ']' :: s) h5]
    simp [reach_lit]
  have h3 : ∀ v : Thread, Reach (.cat (.lit 's') (.cat (.lit 't') (.lit ']'))) v s ↔
      v.rest = 's' :: 't' :: ']' :: s := by
    intro v
    rw [reach_cat _ _ _ _ (fun m => m = 't' :: ']' :: s) h4]
    simp [reach_lit]
  have h2 : ∀ v : Thread,
      Reach (.cat (.lit 'e') (.cat (.lit 's') (.cat (.lit 't') (.lit ']')))) v s ↔
      v.rest = 'e' :: 's' :: 't' :: ']' :: s := by
    intro v
    rw [reach_cat _ _ _ _ (fun m => m = 's' :: 't' :: ']' :: s) h3]
    simp [reach_lit]
  have h1 : ∀ v : Thread,
      Reach (.cat (.lit 't') (.cat (.lit 'e') (.cat (.lit 's') (.cat (.lit 't') (.lit ']'))))) v s ↔
      v.rest = 't' :: 'e' :: 's' :: 't' :: ']' :: s := by
    intro v
    rw [reach_cat _ _ _ _ (fun m => m = 'e' :: 's' :: 't' :: ']' :: s) h2]
    simp [reach_lit]
  simp only [Regex.literal]
  rw [reach_cat _ _ _ _ (fun m => m = 't' :: 'e' :: 's' :: 't' :: ']' :: s) h1]
  simp [reach_lit]

theorem reach_bracket (t : Thread) (s : List Char) :
    Reach (.cat (.lit '[') (.cat (.star .anyCharNotNL)
        (.cat (.lit '/') (.cat (.star .anyCharNotNL) (.lit ']'))))) t s ↔
      ∃ a b : List Char, (∀ c ∈ a, c ≠ '\n') ∧ (∀ c ∈ b, c ≠ '\n') ∧
        t.rest = '[' :: (a ++ '/' :: (b ++ ']' :: s)) := by
  have h5 : ∀ v : Thread, Reach (.lit ']') v s ↔ v.rest = ']' :: s := fun v => reach_lit _ v s
  have h4 : ∀ v : Thread, Reach (.cat (.star .anyCharNotNL) (.lit ']')) v s ↔
      ∃ b : List Char, (∀ c ∈ b, c ≠ '\n') ∧ v.rest = b ++ ']' :: s := by
    intro v
    rw [reach_cat _ _ _ _ (fun m => m = ']' :: s) h5]
    simp only [reach_star_any]
    constructor
    · rintro ⟨m, ⟨b, hb, hv⟩, rfl⟩
      exact ⟨b, hb, hv⟩
    · rintro ⟨b, hb, hv⟩
      exact ⟨_, ⟨b, hb, hv⟩, rfl⟩
  have h3 : ∀ v : Thread,
      Reach (.cat (.lit '/') (.cat (.star .anyCharNotNL) (.lit ']'))) v s ↔
      ∃ b : List Char, (∀ c ∈ b, c ≠ '\n') ∧ v.rest = '/' :: (b ++ ']' :: s) := by
    intro v
    rw [reach_cat _ _ _ _ (fun m => ∃ b : List Char, (∀ c ∈ b, c ≠ '\n') ∧ m = b ++ ']' :: s) h4]
    simp only [reach_lit]
    constructor
    · rintro ⟨m, hv, b, hb, rfl⟩
      exact ⟨b, hb, hv⟩
    · rintro ⟨b, hb, hv⟩
      exact ⟨_, hv, b, hb, rfl⟩
  have h2 : ∀ v : Thread,
      Reach (.cat (.star .anyCharNotNL)
        (.cat (.lit '/') (.cat (.star .anyCharNotNL) (.lit ']')))) v s ↔
      ∃ a b : List Char, (∀ c ∈ a, c ≠ '\n') ∧ (∀ c ∈ b, c ≠ '\n') ∧
        v.rest = a ++ '/' :: (b ++ ']' :: s) := by
    intro v
    rw [reach_cat _ _ _ _
      (fun m => ∃ b : List Char, (∀ c ∈ b, c ≠ '\n') ∧ m = '/' :: (b ++ ']' :: s)) h3]
    simp only [reach_star_any]
    constructor
    · rintro ⟨m, ⟨a, ha, hv⟩, b, hb, rfl⟩
      exact ⟨a, b, ha, hb, hv⟩
    · rintro ⟨a, b, ha, hb, hv⟩
      exact ⟨_, ⟨a, ha, hv⟩, b, hb, rfl⟩
  rw [reach_cat _ _ _ _
    (fun m => ∃ a b : List Char, (∀ c ∈ a, c ≠ '\n') ∧ (∀ c ∈ b, c ≠ '\n') ∧
      m = a ++ '/' :: (b ++ ']' :: s)) h2]
  simp only [reach_lit]
  constructor
  · rintro ⟨m, hv, a, b, ha, hb, rfl⟩
    exact ⟨a, b, ha, hb, hv⟩
  · rintro ⟨a, b, ha, hb, hv⟩
    exact ⟨_, hv, a, b, ha, hb, rfl⟩

theorem reach_tail (t : Thread) (s : List Char) :
    Reach (.cat (.star .anyCharNotNL) .endText) t s ↔ (∀ c ∈ t.rest, c ≠ '\n') ∧ s = [] := by
  rw [reach_cat _ _ _ _ (fun m => m = [] ∧ s = []) (fun v => reach_endText v s)]
  simp only [reach_star_any]
  constructor
  · rintro ⟨m, ⟨w, hw, hv⟩, rfl, hs⟩
    refine ⟨?_, hs⟩
    rw [hv, List.append_nil]
    exact hw
  · rintro ⟨hnl, hs⟩
    exact ⟨[], ⟨t.rest, hnl, by simp⟩, rfl, hs⟩

theorem reach_retest (l : List Char) (cap : List (Option (Nat × Nat))) (s : List Char) :
    Reach retestRe.prog ⟨0, l, cap⟩ s ↔
      ∃ r : List Char,
        ((∃ a b : List Char, (∀ c ∈ a, c ≠ '\n') ∧ (∀ c ∈ b, c ≠ '\n') ∧
            l = '[' :: (a ++ '/' :: (b ++ ']' :: r))) ∨
          l = ['[', 't', 'e', 's', 't', ']'] ++ r) ∧
        (∀ c ∈ r, c ≠ '\n') ∧ s = [] := by
  have hlit : "[test]".toList = ['[', 't', 'e', 's', 't', ']'] := rfl
  have hX : ∀ v : Thread,
      Reach (.cat (.capture 0 (.alt
          (.cat (.lit '[') (.cat (.star .anyCharNotNL)
            (.cat (.lit '/') (.cat (.star .anyCharNotNL) (.lit ']')))))
          (Regex.literal ['[', 't', 'e', 's', 't', ']'])))
        (.cat (.star .anyCharNotNL) .endText)) v s ↔
      ∃ r : List Char,
        ((∃ a b : List Char, (∀ c ∈ a, c ≠ '\n') ∧ (∀ c ∈ b, c ≠ '\n') ∧
            v.rest = '[' :: (a ++ '/' :: (b ++ ']' :: r))) ∨
          v.rest = ['[', 't', 'e', 's', 't', ']'] ++ r) ∧
        (∀ c ∈ r, c ≠ '\n') ∧ s = [] := by
    intro v
    rw [reach_cat _ _ _ _ (fun m => (∀ c ∈ m, c ≠ '\n') ∧ s = []) (fun w => reach_tail w s)]
    simp only [reach_capture, reach_alt, reach_bracket, reach_test]
  simp only [retestRe, hlit]
  rw [reach_cat _ _ _ _
    (fun m => ∃ r : List Char,
        ((∃ a b : List Char, (∀ c ∈ a, c ≠ '\n') ∧ (∀ c ∈ b, c ≠ '\n') ∧
            m = '[' :: (a ++ '/' :: (b ++ ']' :: r))) ∨
          m = ['[', 't', 'e', 's', 't', ']'] ++ r) ∧
        (∀ c ∈ r, c ≠ '\n') ∧ s = []) hX]
  simp only [reach_beginText, true_and]
  constructor
  · rintro ⟨m, rfl, h⟩
    exact h
  · intro h
    exact ⟨l, rfl, h⟩

theorem run_retest_ne_nil (l : List Char) (cap : List (Option (Nat × Nat))) :
    retestRe.prog.run ⟨0, l, cap⟩ ≠ [] ↔
      (∀ c ∈ l, c ≠ '\n') ∧
        ((∃ a b r : List Char, l = '[' :: (a ++ '/' :: (b ++ ']' :: r))) ∨
          ∃ r : List Char, l = ['[', 't', 'e', 's', 't', ']'] ++ r) := by
  have hreach : retestRe.prog.run ⟨0, l, cap⟩ ≠ [] ↔ Reach retestRe.prog ⟨0, l, cap⟩ [] := by
    rw [reach_retest]
    constructor
    · intro hne
      obtain ⟨u, hu⟩ := List.exists_mem_of_ne_nil _ hne
      have hr : Reach retestRe.prog ⟨0, l, cap⟩ u.rest := ⟨u, hu, rfl⟩
      rw [reach_retest] at hr
      obtain ⟨r, h1, h2, -⟩ := hr
      exact ⟨r, h1, h2, rfl⟩
    · intro h
      have hr : Reach retestRe.prog ⟨0, l, cap⟩ [] := (reach_retest l cap []).mpr h
      obtain ⟨u, hu, -⟩ := hr
      exact List.ne_nil_of_mem hu
  rw [hreach, reach_retest]
  constructor
  · rintro ⟨r, (⟨a, b, ha, hb, rfl⟩ | rfl), hr, -⟩
    · refine ⟨?_, Or.inl ⟨a, b, r, rfl⟩⟩
      intro c hc
      simp only [List.mem_cons, List.mem_append] at hc
      rcases hc with rfl | hc | rfl | hc | rfl | hc
      · decide
      · exact ha c hc
      · decide
      · exact hb c hc
      · decide
      · exact hr c hc
    · refine ⟨?_, Or.inr ⟨r, rfl⟩⟩
      intro c hc
      simp only [List.mem_cons, List.mem_append, List.mem_singleton, List.not_mem_nil,
        or_false] at hc
      rcases hc with (rfl | rfl | rfl | rfl | rfl | rfl) | hc
      · decide
      · decide
      · decide
      · decide
      · decide
      · decide
      · exact hr c hc
  · rintro ⟨hnl, (⟨a, b, r, rfl⟩ | ⟨r, rfl⟩)⟩
    · refine ⟨r, Or.inl ⟨a, b, ?_, ?_, rfl⟩, ?_, rfl⟩
      · intro c hc
        exact hnl c (by simp [hc])
      · intro c hc
        exact hnl c (by simp [hc])
      · intro c hc
        exact hnl c (by simp [hc])
    · refine ⟨r, Or.inr rfl, ?_, rfl⟩
      intro c hc
      exact hnl c (by simp [hc])

theorem matchAt_retest_pos (text : List Char) (pos : Nat) (h : 0 < pos) :
    matchAt retestRe text pos = none := by
  have hp : pos ≠ 0 := Nat.pos_iff_ne_zero.mp h
  simp [matchAt, retestRe, Regex.run, hp]

theorem searchFrom_retest_pos (text : List Char) (fuel pos : Nat) (h : 0 < pos) :
    searchFrom retestRe text fuel pos = none := by
  induction fuel generalizing pos with
  | zero => rfl
  | succ n ih =>
    simp only [searchFrom, matchAt_retest_pos text pos h]
    exact ih (pos + 1) (Nat.succ_pos _)

theorem doExecute_retest_zero (text : List Char) :
    doExecute retestRe text 0 = matchAt retestRe text 0 := by
  simp only [doExecute, Nat.sub_zero, searchFrom]
  cases matchAt retestRe text 0 with
  | none => exact searchFrom_retest_pos text _ 1 Nat.one_pos
  | some m => rfl

theorem allMatches_retest_eq_nil (text : List Char) (fuel : Nat) :
    allMatches retestRe text (fuel + 1) 0 (-1) = [] ↔ matchAt retestRe text 0 = none := by
  simp only [allMatches, doExecute_retest_zero, gt_iff_lt, Nat.not_lt_zero, if_false]
  cases hm : matchAt retestRe text 0 with
  | none => simp
  | some m =>
    have hstart : ¬ ((m.start : Int) = -1) := by omega
    simp [hstart]

theorem matchAt_eq_none_iff (re : Regexp) (text : List Char) (start : Nat) :
    matchAt re text start = none ↔
      re.prog.run ⟨start, text.drop start, List.replicate re.numSubexp none⟩ = [] := by
  unfold matchAt
  cases re.prog.run ⟨start, text.drop start, List.replicate re.numSubexp none⟩ <;> simp

theorem validTitle_eq_true_iff (title : String) :
    validTitle title = true ↔ retestRe.prog.run ⟨0, title.toList, [none]⟩ ≠ [] := by
  have hnil := allMatches_retest_eq_nil title.toList (title.length + 1)
  rw [matchAt_eq_none_iff] at hnil
  have hrun : retestRe.prog.run ⟨0, List.drop 0 title.toList, List.replicate retestRe.numSubexp none⟩
      = retestRe.prog.run ⟨0, title.toList, [none]⟩ := rfl
  rw [hrun] at hnil
  rw [← not_iff_not, Bool.not_eq_true, not_not, ← hnil]
  unfold validTitle FindAllStringSubmatch
  cases hall : allMatches retestRe title.toList (title.length + 1 + 1) 0 (-1) with
  | nil => simp
  | cons m ms =>
    simp [Match.strings, retestRe]

theorem splitAux_length_pos (sep : Char) (l acc : List Char) :
    1 ≤ (splitAux sep l acc).length := by
  induction l generalizing acc with
  | nil => simp [splitAux]
  | cons c cs ih =>
    simp only [splitAux]
    split
    · simp
    · exact ih _

theorem splitAux_length_ge_two (sep : Char) (l acc : List Char) (h : sep ∈ l) :
    2 ≤ (splitAux sep l acc).length := by
  induction l generalizing acc with
  | nil => simp at h
  | cons c cs ih =>
    simp only [splitAux]
    by_cases hc : c = sep
    · simp only [hc, if_true, List.length_cons]
      have := splitAux_length_pos sep cs []
      omega
    · simp only [hc, if_false]
      rcases List.mem_cons.mp h with h | h
      · exact absurd h.symm hc
      · exact ih _ h

theorem Split_length_ge_two (s : String) (sep : Char) (h : sep ∈ s.toList) :
    2 ≤ (Split s sep).length := by
  simp only [Split, List.length_map]
  exact splitAux_length_ge_two sep s.toList [] h

theorem Split_cons_cons (s : String) (sep : Char) (h : sep ∈ s.toList) :
    ∃ p0 p1 rest, Split s sep = p0 :: p1 :: rest := by
  have hlen := Split_length_ge_two s sep h
  match hs : Split s sep with
  | [] => rw [hs] at hlen; simp at hlen
  | [_] => rw [hs] at hlen; simp at hlen
  | p0 :: p1 :: rest => exact ⟨p0, p1, rest, rfl⟩

theorem ascii_sha1_bytes : ascii "sha1=" = [115, 104, 97, 49, 61] := by decide

theorem validateSig_ok_ne_nil (cfg : Config) (sig body : List Byte)
    (h : validateSig cfg sig body = Except.ok ()) : sig ≠ [] := by
  rw [validateSig_ok_iff, ascii_sha1_bytes] at h
  rw [h]
  simp

theorem validateSig_cases (cfg : Config) (sig body : List Byte) :
    validateSig cfg sig body = Except.ok () ∨
      validateSig cfg sig body = Except.error "payload signature check failed" := by
  by_cases h : ConstantTimeCompare (ascii "sha1=" ++ fmtSbx (hmacSHA1 cfg.sharedSecret body)) sig = 1
  · left
    simp only [validateSig, h, ne_eq, not_true_eq_false, if_false]
  · right
    simp only [validateSig, h, ne_eq, not_false_eq_true, if_true]

/-- The handler after a successful signature check, up to the repository filter. -/
theorem processHook_wrong_repo (cfg : Config) (env : Env) (req : Request)
    (body : List Byte) (payload : PullRequestEvent) (repo : Repository) (fullName : String)
    (hbody : req.body = Except.ok body)
    (hsig : validateSig cfg req.sigHeader body = Except.ok ())
    (hevent : req.eventHeader = ascii "pull_request")
    (hparse : env.ParseWebHook req.eventHeader body = Except.ok payload)
    (hrepo : payload.Repo = some repo) (hname : repo.FullName = some fullName)
    (hne : fullName ≠ cfg.repoFullName) :
    processHook cfg env req = ⟨.json 400 "Payload submitted for wrong repo", []⟩ := by
  have hnil := validateSig_ok_ne_nil cfg _ _ hsig
  simp only [processHook, hnil, if_false, hbody, hsig]
  rw [hevent] at hparse
  simp only [hevent, ne_eq, not_true_eq_false, if_false, hparse, hrepo, hname, hne,
    not_false_eq_true, if_true]

theorem processHook_opened (cfg : Config) (env : Env) (req : Request)
    (body : List Byte) (payload : PullRequestEvent) (repo : Repository) (fullName : String)
    (pr : PullRequest) (title : String)
    (hbody : req.body = Except.ok body)
    (hsig : validateSig cfg req.sigHeader body = Except.ok ())
    (hevent : req.eventHeader = ascii "pull_request")
    (hparse : env.ParseWebHook req.eventHeader body = Except.ok payload)
    (hrepo : payload.Repo = some repo) (hname : repo.FullName = some fullName)
    (htarget : fullName = cfg.repoFullName)
    (haction : payload.Action = some "opened")
    (hpr : payload.PullRequest = some pr) (htitle : pr.Title = some title)
    (hvalid : validTitle title = false) :
    processHook cfg env req =
      match Split fullName '/' with
      | [] => ⟨.panic .indexOutOfRange, []⟩
      | [_] => ⟨.panic .indexOutOfRange, []⟩
      | p0 :: p1 :: _ =>
        match payload.Number with
        | none => ⟨.panic .nilPointerDereference, []⟩
        | some number =>
          if (env.CreateComment ⟨p0, p1, number, cmtBody⟩).err.isSome then
            ⟨.json 500 "Unable to post comment", [⟨p0, p1, number, cmtBody⟩]⟩
          else if (env.CreateComment ⟨p0, p1, number, cmtBody⟩).statusCode < 200 ∨
              (env.CreateComment ⟨p0, p1, number, cmtBody⟩).statusCode ≥ 300 then
            ⟨.json 500 "Unable to post comment", [⟨p0, p1, number, cmtBody⟩]⟩
          else
            ⟨.json 200 "Success", [⟨p0, p1, number, cmtBody⟩]⟩ := by
  have hnil := validateSig_ok_ne_nil cfg _ _ hsig
  simp only [processHook, hnil, if_false, hbody, hsig]
  rw [hevent] at hparse
  subst htarget
  simp only [hevent, ne_eq, not_true_eq_false, if_false, hparse, hrepo, hname, haction,
    hpr, htitle, hvalid, Bool.not_false, if_true]

theorem processHook_calls_ne_nil (cfg : Config) (env : Env) (req : Request)
    (h : (processHook cfg env req).calls ≠ []) :
    req.sigHeader ≠ [] ∧
      ∃ body payload repo pr title,
        req.body = Except.ok body ∧
        validateSig cfg req.sigHeader body = Except.ok () ∧
        req.eventHeader = ascii "pull_request" ∧
        env.ParseWebHook req.eventHeader body = Except.ok payload ∧
        payload.Repo = some repo ∧ repo.FullName = some cfg.repoFullName ∧
        payload.Action = some "opened" ∧
        payload.PullRequest = some pr ∧ pr.Title = some title ∧
        validTitle title = false := by
  by_cases hs : req.sigHeader = []
  · simp [processHook, hs] at h
  refine ⟨hs, ?_⟩
  cases hb : req.body with
  | error e => simp [processHook, hs, hb] at h
  | ok body =>
  rcases validateSig_cases cfg req.sigHeader body with hv | hv
  swap
  · simp [processHook, hs, hb, hv] at h
  by_cases he : req.eventHeader = ascii "pull_request"
  swap
  · simp [processHook, hs, hb, hv, he] at h
  cases hp : env.ParseWebHook req.eventHeader body with
  | error e =>
    rw [he] at hp
    simp [processHook, hs, hb, hv, he, hp] at h
  | ok payload =>
  have hp' := hp
  rw [he] at hp'
  cases hr : payload.Repo with
  | none => simp [processHook, hs, hb, hv, he, hp', hr] at h
  | some repo =>
  cases hn : repo.FullName with
  | none => simp [processHook, hs, hb, hv, he, hp', hr, hn] at h
  | some fullName =>
  by_cases ht : fullName = cfg.repoFullName
  swap
  · simp [processHook, hs, hb, hv, he, hp', hr, hn, ht] at h
  cases ha : payload.Action with
  | none => simp [processHook, hs, hb, hv, he, hp', hr, hn, ht, ha] at h
  | some action =>
  by_cases hao : action = "opened"
  swap
  · simp [processHook, hs, hb, hv, he, hp', hr, hn, ht, ha, hao] at h
  cases hq : payload.PullRequest with
  | none => simp [processHook, hs, hb, hv, he, hp', hr, hn, ht, ha, hao, hq] at h
  | some pr =>
  cases hti : pr.Title with
  | none => simp [processHook, hs, hb, hv, he, hp', hr, hn, ht, ha, hao, hq, hti] at h
  | some title =>
  cases hvt : validTitle title with
  | true => simp [processHook, hs, hb, hv, he, hp', hr, hn, ht, ha, hao, hq, hti, hvt] at h
  | false =>
  subst ht hao
  exact ⟨body, payload, repo, pr, title, rfl, hv, he, hp, hr, hn, ha, hq, hti, hvt⟩

theorem processHook_sig_failure (cfg : Config) (env : Env) (req : Request) (body : List Byte)
    (hne : req.sigHeader ≠ []) (hbody : req.body = Except.ok body)
    (hsig : validateSig cfg req.sigHeader body ≠ Except.ok ()) :
    processHook cfg env req =
      ⟨.json 403 "Validating payload against signature failed", []⟩ := by
  rcases validateSig_cases cfg req.sigHeader body with hv | hv
  · exact absurd hv hsig
  · simp only [processHook, hne, if_false, hbody, hv]

theorem sampleSig_valid (target : String) :
    validateSig (sampleCfg target) sampleSig (ascii "payload") = Except.ok () :=
  (validateSig_ok_iff _ _ _).mpr
    (show sampleSig = ascii "sha1=" ++ fmtSbx (hmacSHA1 (ascii "secret") (ascii "payload")) by
      decide!)

theorem garbage_invalid (cfg : Config) (body : List Byte) :
    validateSig cfg (ascii "garbage") body ≠ Except.ok () := by
  intro h
  rw [validateSig_ok_iff, ascii_sha1_bytes] at h
  have h0 := congrArg List.head? h
  have hg : (ascii "garbage").head? = some 103 := by decide
  rw [hg] at h0
  simp at h0

theorem processHook_skip_event (cfg : Config) (env : Env) (req : Request) (body : List Byte)
    (hbody : req.body = Except.ok body)
    (hsig : validateSig cfg req.sigHeader body = Except.ok ())
    (hevent : req.eventHeader ≠ ascii "pull_request") :
    processHook cfg env req = ⟨.json 200 "Skipping event type", []⟩ := by
  have hnil := validateSig_ok_ne_nil cfg _ _ hsig
  simp only [processHook, hnil, if_false, hbody, hsig, ne_eq, hevent, not_false_eq_true, if_true]

theorem processHook_skip_action (cfg : Config) (env : Env) (req : Request)
    (body : List Byte) (payload : PullRequestEvent) (repo : Repository) (action : String)
    (hbody : req.body = Except.ok body)
    (hsig : validateSig cfg req.sigHeader body = Except.ok ())
    (hevent : req.eventHeader = ascii "pull_request")
    (hparse : env.ParseWebHook req.eventHeader body = Except.ok payload)
    (hrepo : payload.Repo = some repo) (hname : repo.FullName = some cfg.repoFullName)
    (haction : payload.Action = some action) (hne : action ≠ "opened") :
    processHook cfg env req = ⟨.json 200 "Skipping action", []⟩ := by
  have hnil := validateSig_ok_ne_nil cfg _ _ hsig
  simp only [processHook, hnil, if_false, hbody, hsig]
  rw [hevent] at hparse
  simp only [hevent, ne_eq, not_true_eq_false, if_false, hparse, hrepo, hname, haction, hne,
    not_false_eq_true, if_true]

theorem processHook_missing_sig (cfg : Config) (env : Env) (req : Request)
    (h : req.sigHeader = []) :
    processHook cfg env req = ⟨.json 400 "Missing X-Hub-Signature", []⟩ := by
  simp only [processHook, h, if_true]

theorem processHook_not_indexOutOfRange (cfg : Config) (env : Env) (req : Request)
    (hcfg : '/' ∈ cfg.repoFullName.toList) :
    (processHook cfg env req).outcome ≠ .panic .indexOutOfRange := by
  by_cases hs : req.sigHeader = []
  · simp [processHook, hs]
  cases hb : req.body with
  | error e => simp [processHook, hs, hb]
  | ok body =>
  rcases validateSig_cases cfg req.sigHeader body with hv | hv
  swap
  · simp [processHook, hs, hb, hv]
  by_cases he : req.eventHeader = ascii "pull_request"
  swap
  · simp [processHook, hs, hb, hv, he]
  cases hp : env.ParseWebHook req.eventHeader body with
  | error e =>
    rw [he] at hp
    simp [processHook, hs, hb, hv, he, hp]
  | ok payload =>
  have hp' := hp
  rw [he] at hp'
  cases hr : payload.Repo with
  | none => simp [processHook, hs, hb, hv, he, hp', hr]
  | some repo =>
  cases hn : repo.FullName with
  | none => simp [processHook, hs, hb, hv, he, hp', hr, hn]
  | some fullName =>
  by_cases ht : fullName = cfg.repoFullName
  swap
  · simp [processHook, hs, hb, hv, he, hp', hr, hn, ht]
  cases ha : payload.Action with
  | none => simp [processHook, hs, hb, hv, he, hp', hr, hn, ht, ha]
  | some action =>
  by_cases hao : action = "opened"
  swap
  · simp [processHook, hs, hb, hv, he, hp', hr, hn, ht, ha, hao]
  cases hq : payload.PullRequest with
  | none => simp [processHook, hs, hb, hv, he, hp', hr, hn, ht, ha, hao, hq]
  | some pr =>
  cases hti : pr.Title with
  | none => simp [processHook, hs, hb, hv, he, hp', hr, hn, ht, ha, hao, hq, hti]
  | some title =>
  cases hvt : validTitle title with
  | true => simp [processHook, hs, hb, hv, he, hp', hr, hn, ht, ha, hao, hq, hti, hvt]
  | false =>
  subst hao
  rw [processHook_opened cfg env req body payload repo fullName pr title hb hv he hp hr hn ht
    ha hq hti hvt]
  obtain ⟨p0, p1, rest, hsplit⟩ := Split_cons_cons fullName '/' (ht ▸ hcfg)
  simp only [hsplit]
  cases payload.Number with
  | none => simp
  | some number =>
    simp only []
    split
    · simp
    · split <;> simp

theorem sig_header_change_rejected (cfg : Config) (env : Env) (req : Request)
    (body sig : List Byte)
    (hbody : req.body = Except.ok body)
    (hsig : validateSig cfg req.sigHeader body = Except.ok ())
    (hne : sig ≠ req.sigHeader) (hnil : sig ≠ []) :
    (processHook cfg env ⟨sig, req.eventHeader, req.body⟩).status = 403 := by
  have hbad : validateSig cfg sig body ≠ Except.ok () := by
    intro hok
    rw [validateSig_ok_iff] at hok hsig
    exact hne (hok.trans hsig.symm)
  rw [processHook_sig_failure cfg env ⟨sig, req.eventHeader, req.body⟩ body hnil hbody hbad]
  rfl

/-! ## The claims -/

/-- C2: whenever `processHook` issues a comment-creation call, the signature
header is non-empty and passes `validateSig` for the body, the event type is
"pull_request", the body parsed, the repository full name equals the target, the
action is "opened" and `validTitle` of the title is false; in particular a
request whose signature is absent or fails validation causes no call. -/
theorem C2_comment_only_after_all_checks (cfg : Config) (env : Env) (req : Request) :
    ((processHook cfg env req).calls ≠ [] →
      req.sigHeader ≠ [] ∧
        ∃ body payload repo pr title,
          req.body = Except.ok body ∧
          validateSig cfg req.sigHeader body = Except.ok () ∧
          req.eventHeader = ascii "pull_request" ∧
          env.ParseWebHook req.eventHeader body = Except.ok payload ∧
          payload.Repo = some repo ∧ repo.FullName = some cfg.repoFullName ∧
          payload.Action = some "opened" ∧
          payload.PullRequest = some pr ∧ pr.Title = some title ∧
          validTitle title = false) ∧
    ((req.sigHeader = [] ∨
        ∀ body, req.body = Except.ok body → validateSig cfg req.sigHeader body ≠ Except.ok ()) →
      (processHook cfg env req).calls = []) := by
  refine ⟨processHook_calls_ne_nil cfg env req, ?_⟩
  intro hbad
  by_contra hcalls
  obtain ⟨hne, body, _, _, _, _, hbody, hsig, -⟩ := processHook_calls_ne_nil cfg env req hcalls
  rcases hbad with h | h
  · exact hne h
  · exact h body hbody hsig

/-- Witness for C2: a correctly signed "opened" event with the title "fix typo"
makes the handler issue a call, and every check has passed. -/
theorem C2_witness :
    (processHook (sampleCfg "helm/charts")
        (sampleEnv (sampleEvent "helm/charts" "opened" "fix typo") 201)
        (sampleReq sampleSig "pull_request")).calls ≠ [] ∧
      (sampleReq sampleSig "pull_request").sigHeader ≠ [] :=
  have hcalls : (processHook (sampleCfg "helm/charts")
      (sampleEnv (sampleEvent "helm/charts" "opened" "fix typo") 201)
      (sampleReq sampleSig "pull_request")).calls ≠ [] := by
    have h := processHook_opened (sampleCfg "helm/charts")
      (sampleEnv (sampleEvent "helm/charts" "opened" "fix typo") 201)
      (sampleReq sampleSig "pull_request") (ascii "payload")
      (sampleEvent "helm/charts" "opened" "fix typo")
      ⟨some "helm/charts"⟩ "helm/charts" ⟨some "fix typo"⟩ "fix typo" rfl
      (sampleSig_valid _) rfl rfl rfl rfl rfl rfl rfl rfl (by decide)
    rw [h]
    decide
  ⟨hcalls,
   ((C2_comment_only_after_all_checks (sampleCfg "helm/charts")
      (sampleEnv (sampleEvent "helm/charts" "opened" "fix typo") 201)
      (sampleReq sampleSig "pull_request")).1 hcalls).1⟩

/-- C3 as stated fails: with the target "charts" (no "/") a correctly signed
"opened" event for "charts" with the invalid title "fix typo" issues no
comment-creation call at all, the handler panics on `parts[1]`; and for the
target "helm/charts" the same event without a pull-request number issues no
call either, the handler panics on `*payload.Number`. -/
theorem C3_counterexample :
    validateSig (sampleCfg "charts") sampleSig (ascii "payload") = Except.ok () ∧
      validTitle "fix typo" = false ∧
      ((processHook (sampleCfg "charts")
        (sampleEnv (sampleEvent "charts" "opened" "fix typo") 201)
        (sampleReq sampleSig "pull_request")).calls = [] ∧
      (processHook (sampleCfg "charts")
        (sampleEnv (sampleEvent "charts" "opened" "fix typo") 201)
        (sampleReq sampleSig "pull_request")).outcome = .panic .indexOutOfRange) ∧
      ((processHook (sampleCfg "helm/charts")
        (sampleEnv ⟨some "opened", none, some ⟨some "fix typo"⟩, some ⟨some "helm/charts"⟩⟩ 201)
        (sampleReq sampleSig "pull_request")).calls = [] ∧
      (processHook (sampleCfg "helm/charts")
        (sampleEnv ⟨some "opened", none, some ⟨some "fix typo"⟩, some ⟨some "helm/charts"⟩⟩ 201)
        (sampleReq sampleSig "pull_request")).outcome = .panic .nilPointerDereference) := by
  have h' := processHook_opened (sampleCfg "helm/charts")
    (sampleEnv ⟨some "opened", none, some ⟨some "fix typo"⟩, some ⟨some "helm/charts"⟩⟩ 201)
    (sampleReq sampleSig "pull_request") (ascii "payload")
    ⟨some "opened", none, some ⟨some "fix typo"⟩, some ⟨some "helm/charts"⟩⟩
    ⟨some "helm/charts"⟩ "helm/charts" ⟨some "fix typo"⟩ "fix typo" rfl
    (sampleSig_valid _) rfl rfl rfl rfl rfl rfl rfl rfl (by decide)
  have h := processHook_opened (sampleCfg "charts")
    (sampleEnv (sampleEvent "charts" "opened" "fix typo") 201)
    (sampleReq sampleSig "pull_request") (ascii "payload")
    (sampleEvent "charts" "opened" "fix typo")
    ⟨some "charts"⟩ "charts" ⟨some "fix typo"⟩ "fix typo" rfl
    (sampleSig_valid _) rfl rfl rfl rfl rfl rfl rfl rfl (by decide)
  refine ⟨sampleSig_valid _, by decide, ?_, ?_⟩
  · rw [h]
    decide
  · rw [h']
    decide

/-- C3 (amended): for a request with a valid signature, event type
"pull_request", repository full name equal to the target and containing a "/",
action "opened", a pull-request number and a title that `validTitle` rejects,
`processHook` issues exactly one comment-creation call, to owner and repository
being the first and second "/"-separated parts of the full name, with the
event's number and the body `cmtBody`; the response is 200 "Success" when the
call returns no error and a status in 200..299, and 500 "Unable to post
comment" when it returns an error or a status outside 200..299. -/
theorem C3_one_comment_call (cfg : Config) (env : Env) (req : Request)
    (body : List Byte) (payload : PullRequestEvent) (repo : Repository) (fullName : String)
    (pr : PullRequest) (title : String) (number : Int)
    (hbody : req.body = Except.ok body)
    (hsig : validateSig cfg req.sigHeader body = Except.ok ())
    (hevent : req.eventHeader = ascii "pull_request")
    (hparse : env.ParseWebHook req.eventHeader body = Except.ok payload)
    (hrepo : payload.Repo = some repo) (hname : repo.FullName = some fullName)
    (htarget : fullName = cfg.repoFullName)
    (haction : payload.Action = some "opened")
    (hpr : payload.PullRequest = some pr) (htitle : pr.Title = some title)
    (hvalid : validTitle title = false)
    (hnumber : payload.Number = some number)
    (hslash : '/' ∈ fullName.toList) :
    ∃ owner name rest,
      Split fullName '/' = owner :: name :: rest ∧
      (processHook cfg env req).calls = [⟨owner, name, number, cmtBody⟩] ∧
      (((env.CreateComment ⟨owner, name, number, cmtBody⟩).err = none ∧
          200 ≤ (env.CreateComment ⟨owner, name, number, cmtBody⟩).statusCode ∧
          (env.CreateComment ⟨owner, name, number, cmtBody⟩).statusCode ≤ 299) →
        (processHook cfg env req).outcome = .json 200 "Success") ∧
      (((env.CreateComment ⟨owner, name, number, cmtBody⟩).err ≠ none ∨
          (env.CreateComment ⟨owner, name, number, cmtBody⟩).statusCode < 200 ∨
          299 < (env.CreateComment ⟨owner, name, number, cmtBody⟩).statusCode) →
        (processHook cfg env req).outcome = .json 500 "Unable to post comment") := by
  obtain ⟨owner, name, rest, hsplit⟩ := Split_cons_cons fullName '/' hslash
  refine ⟨owner, name, rest, hsplit, ?_⟩
  rw [processHook_opened cfg env req body payload repo fullName pr title hbody hsig hevent
    hparse hrepo hname htarget haction hpr htitle hvalid]
  simp only [hsplit, hnumber]
  cases herr : (env.CreateComment ⟨owner, name, number, cmtBody⟩).err with
  | some e => simp
  | none =>
    by_cases hcode : (env.CreateComment ⟨owner, name, number, cmtBody⟩).statusCode < 200 ∨
        (env.CreateComment ⟨owner, name, number, cmtBody⟩).statusCode ≥ 300
    · simp only [Option.isSome_none, Bool.false_eq_true, if_false, hcode, if_true, true_and,
        ne_eq, not_true_eq_false, false_or]
      refine ⟨?_, fun _ => trivial⟩
      rintro ⟨h1, h2⟩
      omega
    · simp only [Option.isSome_none, Bool.false_eq_true, if_false, hcode, true_and,
        ne_eq, not_true_eq_false, false_or]
      refine ⟨fun _ => trivial, ?_⟩
      intro h
      exact absurd (by omega) hcode

/-- Witness for C3: the sample "opened" event for "helm/charts" with the title
"fix typo" and an API answer 201. -/
theorem C3_witness :
    ∃ owner name rest,
      Split "helm/charts" '/' = owner :: name :: rest ∧
      (processHook (sampleCfg "helm/charts")
        (sampleEnv (sampleEvent "helm/charts" "opened" "fix typo") 201)
        (sampleReq sampleSig "pull_request")).calls = [⟨owner, name, 7, cmtBody⟩] :=
  let ⟨owner, name, rest, h1, h2, _⟩ :=
    C3_one_comment_call (sampleCfg "helm/charts")
      (sampleEnv (sampleEvent "helm/charts" "opened" "fix typo") 201)
      (sampleReq sampleSig "pull_request") (ascii "payload")
      (sampleEvent "helm/charts" "opened" "fix typo") ⟨some "helm/charts"⟩ "helm/charts"
      ⟨some "fix typo"⟩ "fix typo" 7 rfl (sampleSig_valid _) rfl rfl rfl rfl rfl rfl rfl rfl
      (by decide) rfl (by decide)
  ⟨owner, name, rest, h1, h2⟩

/-- Witness for C1: the sample signature is accepted for the body "payload"
under the secret "secret", and the header "garbage" is rejected. -/
theorem C1_witness :
    validateSig ⟨ascii "secret", "helm/charts", "token"⟩ sampleSig (ascii "payload")
        = Except.ok () ∧
      validateSig ⟨ascii "secret", "helm/charts", "token"⟩ (ascii "garbage") (ascii "payload")
        = Except.error "payload signature check failed" :=
  ⟨(C1_validateSig_iff (ascii "secret") (ascii "payload") sampleSig "helm/charts" "token").1.mpr
      (by decide!),
   (C1_validateSig_iff (ascii "secret") (ascii "payload") (ascii "garbage") "helm/charts"
      "token").2
      (by
        intro h
        have h0 := congrArg List.head? h
        rw [ascii_sha1_bytes] at h0
        have hg : (ascii "garbage").head? = some 103 := by decide
        rw [hg] at h0
        simp at h0)⟩

/-- C4: the four example titles of the specification. -/
theorem C4_validTitle_examples :
    validTitle "[stable/mariadb] fix typo" = true ∧ validTitle "[test] add case" = true ∧
      validTitle "fix typo" = false ∧ validTitle "[stable] fix" = false := by
  decide

/-- C5 as stated fails in both directions: "[a/b/c]" is accepted although what
stands between the brackets is not two segments free of "/", and "[test]"
followed by a line break is rejected although it starts with "[test]". -/
theorem C5_counterexample :
    (validTitle "[a/b/c]" = true ∧ ¬ SpecValidTitle "[a/b/c]") ∧
      (validTitle "[test]\nx" = false ∧ SpecValidTitle "[test]\nx") := by
  refine ⟨⟨by decide, ?_⟩, by decide, Or.inr ⟨['\n', 'x'], rfl⟩⟩
  have hl : "[a/b/c]".toList = ['[', 'a', '/', 'b', '/', 'c', ']'] := rfl
  have ht : "[test]".toList = ['[', 't', 'e', 's', 't', ']'] := rfl
  rintro (⟨a, b, r, ⟨ha, -⟩, ⟨hb, -⟩, h⟩ | ⟨r, h⟩)
  · rw [hl] at h
    rcases a with _ | ⟨x, _ | ⟨y, a⟩⟩
    · simp at h
    · rcases b with _ | ⟨y, _ | ⟨z, b⟩⟩
      · simp at h
      · simp at h
      · simp only [List.cons_append, List.nil_append, List.cons.injEq, true_and] at h
        obtain ⟨-, -, hz, -⟩ := h
        exact hb (by simp [← hz])
    · simp only [List.cons_append, List.cons.injEq, true_and] at h
      obtain ⟨-, hy, -⟩ := h
      exact ha (by simp [← hy])
  · rw [hl, ht] at h
    simp at h

/-- C5 (amended): `validTitle` holds exactly for the titles that contain no
line break and either start with "[test]" or have the form "[" x "/" y "]"
followed by any text, where x and y are arbitrary texts (they may be empty and
may themselves contain "/" and "]"); nothing is trimmed or case-folded. -/
theorem C5_validTitle_iff (t : String) :
    validTitle t = true ↔
      (∀ c ∈ t.toList, c ≠ '\n') ∧
        ((∃ a b r : List Char, t.toList = '[' :: (a ++ '/' :: (b ++ ']' :: r))) ∨
          ∃ r : List Char, t.toList = "[test]".toList ++ r) := by
  rw [validTitle_eq_true_iff, run_retest_ne_nil]
  rfl

/-- C7: a correctly signed "pull_request" event whose payload parses and names
a repository different from the target is answered with status 400 and no
comment-creation call, whatever action and title it carries. -/
theorem C7_wrong_repo (cfg : Config) (env : Env) (req : Request)
    (body : List Byte) (payload : PullRequestEvent) (repo : Repository) (fullName : String)
    (hbody : req.body = Except.ok body)
    (hsig : validateSig cfg req.sigHeader body = Except.ok ())
    (hevent : req.eventHeader = ascii "pull_request")
    (hparse : env.ParseWebHook req.eventHeader body = Except.ok payload)
    (hrepo : payload.Repo = some repo) (hname : repo.FullName = some fullName)
    (hne : fullName ≠ cfg.repoFullName) :
    (processHook cfg env req).status = 400 ∧
      (processHook cfg env req).outcome = .json 400 "Payload submitted for wrong repo" ∧
      (processHook cfg env req).calls = [] := by
  rw [processHook_wrong_repo cfg env req body payload repo fullName hbody hsig hevent hparse
    hrepo hname hne]
  exact ⟨rfl, rfl, rfl⟩

/-- Witness for C7: an "opened" event for "evil/repo" sent to a handler
configured for "helm/charts". -/
theorem C7_witness :
    (processHook (sampleCfg "helm/charts")
        (sampleEnv (sampleEvent "evil/repo" "opened" "fix typo") 201)
        (sampleReq sampleSig "pull_request")).status = 400 ∧
      (processHook (sampleCfg "helm/charts")
        (sampleEnv (sampleEvent "evil/repo" "opened" "fix typo") 201)
        (sampleReq sampleSig "pull_request")).calls = [] :=
  have h := C7_wrong_repo (sampleCfg "helm/charts")
    (sampleEnv (sampleEvent "evil/repo" "opened" "fix typo") 201)
    (sampleReq sampleSig "pull_request") (ascii "payload")
    (sampleEvent "evil/repo" "opened" "fix typo") ⟨some "evil/repo"⟩ "evil/repo"
    rfl (sampleSig_valid _) rfl rfl rfl rfl (by decide)
  ⟨h.1, h.2.2⟩

/-- C8: a correctly signed request is answered with status 200, a skip message
and no comment when its event type is not "pull_request" (whatever the body
is), or when it is a pull-request event for the target repository whose action
is not "opened". -/
theorem C8_skip (cfg : Config) (env : Env) (req : Request) (body : List Byte)
    (hbody : req.body = Except.ok body)
    (hsig : validateSig cfg req.sigHeader body = Except.ok ()) :
    (req.eventHeader ≠ ascii "pull_request" →
      (processHook cfg env req).status = 200 ∧
      (processHook cfg env req).outcome = .json 200 "Skipping event type" ∧
      (processHook cfg env req).calls = []) ∧
    (∀ payload repo action,
      req.eventHeader = ascii "pull_request" →
      env.ParseWebHook req.eventHeader body = Except.ok payload →
      payload.Repo = some repo → repo.FullName = some cfg.repoFullName →
      payload.Action = some action → action ≠ "opened" →
      (processHook cfg env req).status = 200 ∧
      (processHook cfg env req).outcome = .json 200 "Skipping action" ∧
      (processHook cfg env req).calls = []) := by
  constructor
  · intro hevent
    rw [processHook_skip_event cfg env req body hbody hsig hevent]
    exact ⟨rfl, rfl, rfl⟩
  · intro payload repo action hevent hparse hrepo hname haction hne
    rw [processHook_skip_action cfg env req body payload repo action hbody hsig hevent hparse
      hrepo hname haction hne]
    exact ⟨rfl, rfl, rfl⟩

/-- Witness for C8: a signed "ping" event, and a signed "closed" pull-request
event for the target repository. -/
theorem C8_witness :
    (processHook (sampleCfg "helm/charts")
        (sampleEnv (sampleEvent "helm/charts" "opened" "fix typo") 201)
        (sampleReq sampleSig "ping")).outcome = .json 200 "Skipping event type" ∧
      (processHook (sampleCfg "helm/charts")
        (sampleEnv (sampleEvent "helm/charts" "closed" "fix typo") 201)
        (sampleReq sampleSig "pull_request")).outcome = .json 200 "Skipping action" :=
  ⟨((C8_skip (sampleCfg "helm/charts")
      (sampleEnv (sampleEvent "helm/charts" "opened" "fix typo") 201)
      (sampleReq sampleSig "ping") (ascii "payload") rfl (sampleSig_valid _)).1
        (by decide)).2.1,
   ((C8_skip (sampleCfg "helm/charts")
      (sampleEnv (sampleEvent "helm/charts" "closed" "fix typo") 201)
      (sampleReq sampleSig "pull_request") (ascii "payload") rfl (sampleSig_valid _)).2
        (sampleEvent "helm/charts" "closed" "fix typo") ⟨some "helm/charts"⟩ "closed"
        rfl rfl rfl rfl rfl (by decide)).2.1⟩

/-- C9 as stated fails: the header "garbage" is not of the form "sha1=" plus
hexadecimal digits, and the request is answered with 403, not 400. -/
theorem C9_counterexample :
    sigWellFormed (ascii "garbage") = false ∧
      (processHook (sampleCfg "helm/charts")
        (sampleEnv (sampleEvent "helm/charts" "opened" "fix typo") 201)
        (sampleReq (ascii "garbage") "pull_request")).status = 403 := by
  refine ⟨by decide, ?_⟩
  rw [processHook_sig_failure (sampleCfg "helm/charts") _ _ (ascii "payload") (by decide) rfl
    (garbage_invalid _ _)]
  rfl

/-- C9 (amended): a request whose signature header is missing (empty) is
answered with status 400; a request with a non-empty header and a readable body
whose header differs from the signature computed for the body, whether the
header is malformed or well-formed, is answered with status 403. -/
theorem C9_signature_status (cfg : Config) (env : Env) (req : Request) :
    (req.sigHeader = [] → (processHook cfg env req).status = 400) ∧
    (∀ body, req.sigHeader ≠ [] → req.body = Except.ok body →
      req.sigHeader ≠ ascii "sha1=" ++ hexLower (hmacSHA1 cfg.sharedSecret body) →
      (processHook cfg env req).status = 403) := by
  constructor
  · intro h
    rw [processHook_missing_sig cfg env req h]
    rfl
  · intro body hne hbody hdiff
    have hsig : validateSig cfg req.sigHeader body ≠ Except.ok () := by
      intro hok
      rw [validateSig_ok_iff, fmtSbx_eq_hexLower] at hok
      exact hdiff hok
    rw [processHook_sig_failure cfg env req body hne hbody hsig]
    rfl

/-- Witness for C9: a request without signature header, and a request with the
well-formed but wrong header "sha1=00". -/
theorem C9_witness :
    (processHook (sampleCfg "helm/charts")
        (sampleEnv (sampleEvent "helm/charts" "opened" "fix typo") 201)
        (sampleReq [] "pull_request")).status = 400 ∧
      (processHook (sampleCfg "helm/charts")
        (sampleEnv (sampleEvent "helm/charts" "opened" "fix typo") 201)
        (sampleReq (ascii "sha1=00") "pull_request")).status = 403 :=
  ⟨(C9_signature_status (sampleCfg "helm/charts")
      (sampleEnv (sampleEvent "helm/charts" "opened" "fix typo") 201)
      (sampleReq [] "pull_request")).1 rfl,
   (C9_signature_status (sampleCfg "helm/charts")
      (sampleEnv (sampleEvent "helm/charts" "opened" "fix typo") 201)
      (sampleReq (ascii "sha1=00") "pull_request")).2 (ascii "payload") (by decide) rfl
      (by
        intro h
        have hlen := congrArg List.length h
        rw [← fmtSbx_eq_hexLower] at hlen
        revert hlen
        decide!)⟩

/-- C10: when the configured target repository name contains a "/", the handler
never fails with an index-out-of-range error, and for every request that reaches
the comment-posting step (repository full name, action, title and number
present) splitting the full name on "/" yields at least two parts. -/
theorem C10_split_in_range (cfg : Config) (env : Env) (req : Request)
    (hcfg : '/' ∈ cfg.repoFullName.toList) :
    (processHook cfg env req).outcome ≠ .panic .indexOutOfRange ∧
    (∀ body payload repo fullName pr title number,
      req.sigHeader ≠ [] → req.body = Except.ok body →
      validateSig cfg req.sigHeader body = Except.ok () →
      req.eventHeader = ascii "pull_request" →
      env.ParseWebHook req.eventHeader body = Except.ok payload →
      payload.Repo = some repo → repo.FullName = some fullName →
      fullName = cfg.repoFullName → payload.Action = some "opened" →
      payload.PullRequest = some pr → pr.Title = some title →
      payload.Number = some number → validTitle title = false →
      2 ≤ (Split fullName '/').length) := by
  refine ⟨processHook_not_indexOutOfRange cfg env req hcfg, ?_⟩
  intro body payload repo fullName pr title number _ _ _ _ _ _ _ htarget _ _ _ _ _
  exact Split_length_ge_two fullName '/' (htarget ▸ hcfg)

/-- Witness for C10: the sample "opened" event for "helm/charts". -/
theorem C10_witness :
    (processHook (sampleCfg "helm/charts")
        (sampleEnv (sampleEvent "helm/charts" "opened" "fix typo") 201)
        (sampleReq sampleSig "pull_request")).outcome ≠ .panic .indexOutOfRange ∧
      2 ≤ (Split "helm/charts" '/').length :=
  have h := C10_split_in_range (sampleCfg "helm/charts")
    (sampleEnv (sampleEvent "helm/charts" "opened" "fix typo") 201)
    (sampleReq sampleSig "pull_request") (by decide)
  ⟨h.1, h.2 (ascii "payload") (sampleEvent "helm/charts" "opened" "fix typo")
    ⟨some "helm/charts"⟩ "helm/charts" ⟨some "fix typo"⟩ "fix typo" 7
    (by decide) rfl (sampleSig_valid _) rfl rfl rfl rfl rfl rfl rfl rfl rfl (by decide)⟩

end CheckPRTitle
